import Mathlib

/-!
# Verification of the termdash treeview widget

Shallow embedding of `widgets/treeview/treeview.go` (and its options file).
Trees of mutable nodes are embedded as a purely functional forest
(`List TreeNode`); pointer mutation of a node inside the forest is embedded
as functional update at the node's *path* (the list of child indices from
the root list), which is faithful because the tree structure (children
lists) never changes after construction — only scalar flags do.

Locking.  The source guards state with `tv.mu` and per-node `node.mu`,
both `sync.Mutex` — which in Go is *not* reentrant.  Plain lock/unlock
bracketing around otherwise sequential code has no observable effect and
is elided, but the source holds a mutex across a call that re-locks the
same mutex in two places, and there the operation wedges instead of
completing; those two deadlocks are modeled explicitly:

* `Keyboard` locks `tv.mu` with a deferred unlock (treeview.go:460-461)
  and its Enter/Space arm calls `handleNodeClick` (treeview.go:509),
  which starts by locking `tv.mu` again (treeview.go:372) — see
  `keyboardAct`/`keyboardRun`;
* each `runSpinner` tick locks `node.mu` for a visible node
  (treeview.go:184) and then calls `node.GetShowSpinner()`
  (treeview.go:185), which locks `node.mu` again (treeview.go:54) — see
  `runSpinnerTick`.

A deadlocked call never returns; the model records the memory state at
the wedge and a diagnosis.  (The mouse path is live: `Mouse` releases
`tv.mu` before calling `handleMouseClick`, treeview.go:426-428.)
-/

namespace Termdash

/-- A node of the treeview, from `type TreeNode struct` in treeview.go.
`OnClick func() error` is embedded as the flag `hasOnClick` (whether the
callback is non-nil); the callback's result is supplied externally when the
asynchronous task completes.  The `mu sync.Mutex` field and the `Parent`
back-pointer are not part of the functional state (parenthood is implied by
the forest shape). -/
inductive TreeNode : Type where
  | mk (ID : String) (Label : String) (Level : Nat)
      (ExpandedState : Bool) (ShowSpinner : Bool) (SpinnerIndex : Nat)
      (hasOnClick : Bool) (Children : List TreeNode)

namespace TreeNode

def ID : TreeNode → String
  | .mk i _ _ _ _ _ _ _ => i

def Label : TreeNode → String
  | .mk _ l _ _ _ _ _ _ => l

def Level : TreeNode → Nat
  | .mk _ _ lv _ _ _ _ _ => lv

def ExpandedState : TreeNode → Bool
  | .mk _ _ _ e _ _ _ _ => e

def ShowSpinner : TreeNode → Bool
  | .mk _ _ _ _ s _ _ _ => s

def SpinnerIndex : TreeNode → Nat
  | .mk _ _ _ _ _ si _ _ => si

def hasOnClick : TreeNode → Bool
  | .mk _ _ _ _ _ _ h _ => h

def Children : TreeNode → List TreeNode
  | .mk _ _ _ _ _ _ _ cs => cs

/-- `SetShowSpinner` from treeview.go: sets the flag; resets `SpinnerIndex`
to 0 only when the flag is turned *off*. -/
def SetShowSpinner : TreeNode → Bool → TreeNode
  | .mk i l lv e _ si h cs, v => .mk i l lv e v (if v then si else 0) h cs

/-- `IncrementSpinner` from treeview.go: `SpinnerIndex = (SpinnerIndex + 1) % totalIcons`. -/
def IncrementSpinner : TreeNode → Nat → TreeNode
  | .mk i l lv e s si h cs, total => .mk i l lv e s ((si + 1) % total) h cs

/-- `SetExpandedState` from treeview.go. -/
def SetExpandedState : TreeNode → Bool → TreeNode
  | .mk i l lv _ s si h cs, v => .mk i l lv v s si h cs

@[simp] theorem ID_mk (i l : String) (lv : Nat) (e s : Bool) (si : Nat)
    (h : Bool) (cs : List TreeNode) : (TreeNode.mk i l lv e s si h cs).ID = i := rfl

@[simp] theorem Label_mk (i l : String) (lv : Nat) (e s : Bool) (si : Nat)
    (h : Bool) (cs : List TreeNode) : (TreeNode.mk i l lv e s si h cs).Label = l := rfl

@[simp] theorem Level_mk (i l : String) (lv : Nat) (e s : Bool) (si : Nat)
    (h : Bool) (cs : List TreeNode) : (TreeNode.mk i l lv e s si h cs).Level = lv := rfl

@[simp] theorem ExpandedState_mk (i l : String) (lv : Nat) (e s : Bool) (si : Nat)
    (h : Bool) (cs : List TreeNode) : (TreeNode.mk i l lv e s si h cs).ExpandedState = e := rfl

@[simp] theorem ShowSpinner_mk (i l : String) (lv : Nat) (e s : Bool) (si : Nat)
    (h : Bool) (cs : List TreeNode) : (TreeNode.mk i l lv e s si h cs).ShowSpinner = s := rfl

@[simp] theorem SpinnerIndex_mk (i l : String) (lv : Nat) (e s : Bool) (si : Nat)
    (h : Bool) (cs : List TreeNode) : (TreeNode.mk i l lv e s si h cs).SpinnerIndex = si := rfl

@[simp] theorem hasOnClick_mk (i l : String) (lv : Nat) (e s : Bool) (si : Nat)
    (h : Bool) (cs : List TreeNode) : (TreeNode.mk i l lv e s si h cs).hasOnClick = h := rfl

@[simp] theorem Children_mk (i l : String) (lv : Nat) (e s : Bool) (si : Nat)
    (h : Bool) (cs : List TreeNode) : (TreeNode.mk i l lv e s si h cs).Children = cs := rfl

end TreeNode

/-- The body of `updateVisibleNodes` (and, identically, `getVisibleNodesList`)
in treeview.go builds the flat list by appending to a growing accumulator:
`traverse` appends the node, then — only if `ExpandedState` — recurses into
the children in order; the outer loop runs `traverse` over each root.  This
function is that accumulator loop: `visitAcc acc fs` processes the pending
sibling list `fs` with accumulated output `acc`. -/
def visitAcc : List TreeNode → List TreeNode → List TreeNode
  | acc, [] => acc
  | acc, .mk i l lv e s si h cs :: rest =>
      let acc1 := acc ++ [.mk i l lv e s si h cs]
      let acc2 := if e then visitAcc acc1 cs else acc1
      visitAcc acc2 rest
termination_by _ fs => sizeOf fs
decreasing_by
  all_goals (simp; try omega)

/-- The flattened visible sequence: `updateVisibleNodes` starts its
traversal with an empty accumulator over the forest of roots. -/
def flattenVisible (forest : List TreeNode) : List TreeNode :=
  visitAcc [] forest

/-- The specification's description of the visible sequence (spec.md §3
invariants): a depth-first pre-order walk of the forest in which a node is
always appended and its children are traversed iff the node's `expanded`
flag is true. -/
def preorderWalk : List TreeNode → List TreeNode
  | [] => []
  | .mk i l lv e s si h cs :: rest =>
      .mk i l lv e s si h cs ::
        ((if e then preorderWalk cs else []) ++ preorderWalk rest)
termination_by fs => sizeOf fs
decreasing_by
  all_goals (simp; try omega)

theorem visitAcc_eq_append (acc : List TreeNode) (fs : List TreeNode) :
    visitAcc acc fs = acc ++ preorderWalk fs := by
  induction fs using preorderWalk.induct generalizing acc with
  | case1 =>
      simp [visitAcc, preorderWalk]
  | case2 i l lv e s si h cs rest ih1 ih2 =>
      rw [visitAcc, preorderWalk]
      by_cases he : e = true
      · simp only [he, if_true]
        rw [ih1, ih2]
        simp
      · simp only [Bool.not_eq_true] at he
        simp only [he, Bool.false_eq_true, if_false]
        rw [ih2]
        simp

/-! ## Paths: the embedding of Go pointers into the forest

A Go `*TreeNode` held by the widget (cached visible list, clicked node) is
embedded as the node's path: the list of child indices leading to it from
the root list.  Tree shape never changes after `New`, so paths are stable
exactly like pointers; reads and writes through a pointer become
`getAtPath` / `updateAtPath`. -/

abbrev Path := List Nat

/-- Dereference a path: index into the sibling list, then descend into the
children for the remainder. -/
def getAtPath : List TreeNode → Path → Option TreeNode
  | _, [] => none
  | fs, i :: q =>
      match fs[i]? with
      | none => none
      | some n => if q = [] then some n else getAtPath n.Children q
termination_by fs p => p.length

/-- Write through a path: apply `f` to the node the path denotes, leaving
everything else unchanged (the embedding of mutating a node via its
pointer). -/
def updateAtPath : List TreeNode → Path → (TreeNode → TreeNode) → List TreeNode
  | fs, [], _ => fs
  | [], _ :: _, _ => []
  | n :: rest, [0], f => f n :: rest
  | .mk i l lv e s si h cs :: rest, 0 :: j :: q, f =>
      TreeNode.mk i l lv e s si h (updateAtPath cs (j :: q) f) :: rest
  | n :: rest, (i+1) :: q, f => n :: updateAtPath rest (i :: q) f
termination_by fs p _ => (p.length, fs.length)

/-- The visible walk together with the path of every visited node: the
path-level mirror of `preorderWalk`, used to embed the widget's cached
slice of visible-node pointers. -/
def walkPairs : List TreeNode → List (Path × TreeNode)
  | [] => []
  | .mk i l lv e s si h cs :: rest =>
      (([0], TreeNode.mk i l lv e s si h cs) ::
        (if e then (walkPairs cs).map (fun pr => (0 :: pr.1, pr.2)) else [])) ++
        (walkPairs rest).map
          (fun pr => (match pr.1 with | [] => [] | j :: q => (j+1) :: q, pr.2))
termination_by fs => sizeOf fs
decreasing_by
  all_goals (simp; try omega)

/-- The cached `tv.visibleNodes` slice, as paths. -/
def visiblePathList (fs : List TreeNode) : List Path :=
  (walkPairs fs).map Prod.fst

theorem map_snd_repath (g : Path → Path) (l : List (Path × TreeNode)) :
    (l.map (fun pr => (g pr.1, pr.2))).map Prod.snd = l.map Prod.snd := by
  induction l with
  | nil => rfl
  | cons a t ih => simp [ih]

theorem walkPairs_snd (fs : List TreeNode) :
    (walkPairs fs).map Prod.snd = preorderWalk fs := by
  induction fs using preorderWalk.induct with
  | case1 => simp [walkPairs, preorderWalk]
  | case2 i l lv e s si h cs rest ih1 ih2 =>
      rw [walkPairs, preorderWalk]
      rw [List.map_append, List.map_cons]
      rw [map_snd_repath (fun p => match p with | [] => [] | j :: q => (j+1) :: q)]
      rw [ih2]
      by_cases he : e = true
      · rw [if_pos he, if_pos he]
        rw [map_snd_repath (fun p => 0 :: p)]
        rw [ih1]
        rfl
      · simp only [Bool.not_eq_true] at he
        subst he
        simp

@[simp] theorem getAtPath_nil (p : Path) : getAtPath [] p = none := by
  cases p with
  | nil => rw [getAtPath]
  | cons i q => rw [getAtPath]; simp

@[simp] theorem getAtPath_nil_path (fs : List TreeNode) : getAtPath fs [] = none := by
  rw [getAtPath]

@[simp] theorem getAtPath_cons_zero_nil (n : TreeNode) (rest : List TreeNode) :
    getAtPath (n :: rest) [0] = some n := by
  rw [getAtPath]; simp

@[simp] theorem getAtPath_cons_zero_cons (n : TreeNode) (rest : List TreeNode)
    (j : Nat) (q : Path) :
    getAtPath (n :: rest) (0 :: j :: q) = getAtPath n.Children (j :: q) := by
  rw [getAtPath]; simp

@[simp] theorem getAtPath_cons_succ (n : TreeNode) (rest : List TreeNode)
    (i : Nat) (q : Path) :
    getAtPath (n :: rest) ((i+1) :: q) = getAtPath rest (i :: q) := by
  rw [getAtPath]
  conv_rhs => rw [getAtPath]
  simp

/-- Every path in `walkPairs` is nonempty. -/
theorem walkPairs_fst_ne_nil (fs : List TreeNode) :
    ∀ pr ∈ walkPairs fs, pr.1 ≠ [] := by
  induction fs using preorderWalk.induct with
  | case1 => simp [walkPairs]
  | case2 i l lv e s si h cs rest ih1 ih2 =>
      intro pr hpr
      rw [walkPairs] at hpr
      rcases List.mem_append.mp hpr with hl | hr
      · rcases List.mem_cons.mp hl with h0 | hin
        · rw [h0]
          simp
        · by_cases he : e = true
          · simp only [he, if_true, List.mem_map] at hin
            obtain ⟨q, _, hq⟩ := hin
            rw [← hq]
            simp
          · simp only [Bool.not_eq_true] at he
            simp [he] at hin
      · rcases List.mem_map.mp hr with ⟨q, hqmem, hq⟩
        have hne := ih2 q hqmem
        rw [← hq]
        cases hq1 : q.1 with
        | nil => exact absurd hq1 hne
        | cons j t => simp

/-- Paths produced by the visible walk dereference to the walked nodes:
the cached pointer list and the flattened sequence agree. -/
theorem getAtPath_walkPairs (fs : List TreeNode) :
    ∀ pr ∈ walkPairs fs, getAtPath fs pr.1 = some pr.2 := by
  induction fs using preorderWalk.induct with
  | case1 => simp [walkPairs]
  | case2 i l lv e s si h cs rest ih1 ih2 =>
      intro pr hpr
      rw [walkPairs] at hpr
      rcases List.mem_append.mp hpr with hl | hr
      · rcases List.mem_cons.mp hl with h0 | hin
        · rw [h0]
          simp
        · by_cases he : e = true
          · simp only [he, if_true, List.mem_map] at hin
            obtain ⟨q, hqmem, hq⟩ := hin
            have hne := walkPairs_fst_ne_nil cs q hqmem
            have hget := ih1 q hqmem
            rw [← hq]
            simp only
            cases hq1 : q.1 with
            | nil => exact absurd hq1 hne
            | cons j t =>
                rw [getAtPath_cons_zero_cons]
                rw [hq1] at hget
                simpa using hget
          · simp only [Bool.not_eq_true] at he
            simp [he] at hin
      · rcases List.mem_map.mp hr with ⟨q, hqmem, hq⟩
        have hne := walkPairs_fst_ne_nil rest q hqmem
        have hget := ih2 q hqmem
        rw [← hq]
        cases hq1 : q.1 with
        | nil => exact absurd hq1 hne
        | cons j t =>
            simp only
            rw [getAtPath_cons_succ]
            rw [hq1] at hget
            exact hget

/-- `updateAtPath` never changes the number of roots. -/
theorem length_updateAtPath (fs : List TreeNode) (p : Path) (f : TreeNode → TreeNode) :
    (updateAtPath fs p f).length = fs.length := by
  induction fs, p, f using updateAtPath.induct <;> simp_all [updateAtPath]

/-! ## Display widths and truncation -/

/-- Modelled from the spec: the repository's `private/runewidth` package is
not among the provided sources.  spec.md describes measurement as
"fixed-width rune measurement": every rune occupies a fixed number of
terminal cells — two for East-Asian wide characters, one otherwise. -/
def runeWidth (c : Char) : Nat :=
  if (0x1100 ≤ c.toNat ∧ c.toNat ≤ 0x115F) ∨ (0x2E80 ≤ c.toNat ∧ c.toNat ≤ 0x303E)
      ∨ (0x3041 ≤ c.toNat ∧ c.toNat ≤ 0x33FF) ∨ (0x3400 ≤ c.toNat ∧ c.toNat ≤ 0x4DBF)
      ∨ (0x4E00 ≤ c.toNat ∧ c.toNat ≤ 0x9FFF) ∨ (0xA000 ≤ c.toNat ∧ c.toNat ≤ 0xA4CF)
      ∨ (0xAC00 ≤ c.toNat ∧ c.toNat ≤ 0xD7A3) ∨ (0xF900 ≤ c.toNat ∧ c.toNat ≤ 0xFAFF)
      ∨ (0xFE30 ≤ c.toNat ∧ c.toNat ≤ 0xFE4F) ∨ (0xFF00 ≤ c.toNat ∧ c.toNat ≤ 0xFF60)
      ∨ (0xFFE0 ≤ c.toNat ∧ c.toNat ≤ 0xFFE6)
  then 2 else 1

/-- Modelled from the spec: `runewidth.StringWidth` — the display width of a
string is the sum of its runes' widths. -/
def stringWidth (s : String) : Nat :=
  (s.data.map runeWidth).sum

/-- The ellipsis marker appended by `truncateString` in treeview.go. -/
def ellipsis : String := "…"

/-- The character-accumulating loop of `truncateString` in treeview.go:
starting from accumulated width `tw`, keep runes while the accumulated
width plus the next rune's width plus the ellipsis width stays within
`maxWidth`; stop at the first rune that would overflow.  `maxWidth` is a Go
`int` and may be zero or negative. -/
def truncLoop (maxWidth : Int) : List Char → Nat → List Char
  | [], _ => []
  | c :: rest, tw =>
      if (tw + runeWidth c + stringWidth ellipsis : Int) > maxWidth then []
      else c :: truncLoop maxWidth rest (tw + runeWidth c)

/-- `truncateString` from treeview.go: return `s` unchanged when it already
fits, otherwise the kept prefix followed by the ellipsis. -/
def truncateString (s : String) (maxWidth : Int) : String :=
  if (stringWidth s : Int) ≤ maxWidth then s
  else String.mk (truncLoop maxWidth s.data 0) ++ ellipsis

theorem stringWidth_append (a b : String) :
    stringWidth (a ++ b) = stringWidth a + stringWidth b := by
  simp [stringWidth]

theorem truncLoop_width (maxWidth : Int) (cs : List Char) (tw : Nat)
    (h : (tw + stringWidth ellipsis : Int) ≤ maxWidth) :
    (((truncLoop maxWidth cs tw).map runeWidth).sum + tw
        + stringWidth ellipsis : Int) ≤ maxWidth := by
  induction cs generalizing tw with
  | nil => simpa [truncLoop] using h
  | cons c rest ih =>
      rw [truncLoop]
      by_cases hc : (tw + runeWidth c + stringWidth ellipsis : Int) > maxWidth
      · rw [if_pos hc]
        simpa using h
      · rw [if_neg hc]
        push_neg at hc
        have := ih (tw + runeWidth c) (by push_cast at hc ⊢; omega)
        simp only [List.map_cons, List.sum_cons]
        push_cast at this ⊢
        omega

/-! ## The spinner stop control (`StopSpinnerTicker`)

`New` starts the spinner ticker goroutine only when `waitingIcons` is
nonempty; `StopSpinnerTicker` stops the ticker and then performs Go's
`close(tv.stopSpinner)`.  `time.Ticker.Stop` may be called repeatedly, but
`close` of an already-closed channel panics, which the embedding reports as
an error value. -/

structure SpinnerCtl : Type where
  tickerStarted : Bool
  stopClosed : Bool
deriving DecidableEq, Repr

/-- Go `close(ch)`: panics (error) on an already-closed channel. -/
def closeChan (c : SpinnerCtl) : Except String SpinnerCtl :=
  if c.stopClosed then .error "close of closed channel"
  else .ok { c with stopClosed := true }

/-- `StopSpinnerTicker` from treeview.go: when the ticker exists, stop it
and close the stop channel; the nil-ticker case is a no-op. -/
def StopSpinnerTicker (c : SpinnerCtl) : Except String SpinnerCtl :=
  if c.tickerStarted then closeChan c
  else .ok c

/-- The spinner control state right after `New` with a nonempty
`waitingIcons` list (the ticker goroutine was started). -/
def spinnerCtlAfterNew : SpinnerCtl :=
  { tickerStarted := true, stopClosed := false }

/-! ## The widget state and its operations -/

/-- Number of rows per mouse-wheel event (`ScrollStep` in treeview.go). -/
def ScrollStep : Int := 5

/-- The embedding of the Go pointer `tv.selectedNode`: selection is read
only through the immutable fields `ID` (comparisons, `drawNode`) and
`Label` (`Select`), so those two fields represent the pointer faithfully. -/
structure SelRef : Type where
  ID : String
  Label : String
deriving DecidableEq, Repr

/-- Configuration, from `options` / `newOptions` in options.go (color
fields are rendering-only and omitted).  Field defaults are the
`newOptions` defaults. -/
structure Options : Type where
  nodes : List TreeNode := []
  expandedIcon : String := "▼"
  collapsedIcon : String := "▶"
  leafIcon : String := "→"
  indentation : Int := 2
  waitingIcons : List String := ["◐", "◓", "◑", "◒"]
  truncate : Bool := false

/-- `Treeview` from treeview.go.  `visiblePaths` embeds the cached
`tv.visibleNodes` slice of pointers; `pendingTasks` records the
leaf-activation goroutines that have been spawned and not yet completed;
timestamps are milliseconds (Go wall-clock time; the zero value of
`time.Time` is embedded as 0 and event times in examples are large, as on
a real clock). -/
structure Treeview : Type where
  nodes : List TreeNode
  selectedNode : Option SelRef
  visiblePaths : List Path
  scrollOffset : Int
  canvasWidth : Int
  canvasHeight : Int
  totalContentHeight : Int
  lastClickTime : Int
  lastKeyTime : Int
  pendingTasks : List Path
  expandedIcon : String
  collapsedIcon : String
  leafIcon : String
  waitingIcons : List String
  indentationPerLevel : Int
  truncate : Bool

/-- `generateNodeID` from treeview.go. -/
def generateNodeID (path label : String) : String :=
  if path = "" then label else path ++ "/" ++ label

/-- `setParentsAndAssignIDs` from treeview.go: assigns levels and IDs by
depth-first recursion (the list version runs it over a sibling list, as
`New` does over the roots). -/
def setParentsAndAssignIDs : List TreeNode → Nat → String → List TreeNode
  | [], _, _ => []
  | .mk _ l _ e s si h cs :: rest, level, path =>
      let nid := generateNodeID path l
      .mk nid l level e s si h (setParentsAndAssignIDs cs (level+1) nid)
        :: setParentsAndAssignIDs rest level path
termination_by fs _ _ => sizeOf fs
decreasing_by
  all_goals (simp; try omega)

/-- `calculateHeight`/`calculateTotalHeight` from treeview.go: a node
contributes 1 plus, when expanded, the heights of its children; the total
sums the roots. -/
def calculateTotalHeight : List TreeNode → Nat
  | [] => 0
  | .mk _ _ _ e _ _ _ cs :: rest =>
      (1 + (if e then calculateTotalHeight cs else 0)) + calculateTotalHeight rest
termination_by fs => sizeOf fs
decreasing_by
  all_goals (simp; try omega)

/-- `updateVisibleNodes` from treeview.go: recompute the flat visible list,
set `totalContentHeight` to its length, clamp `scrollOffset` (only
downward: the negative-reset happens inside the too-large branch), and
store the list as the new cache. -/
def updateVisibleNodes (tv : Treeview) : Treeview :=
  let total : Int := (flattenVisible tv.nodes).length
  let so :=
    if tv.scrollOffset > total - tv.canvasHeight then
      if total - tv.canvasHeight < 0 then 0 else total - tv.canvasHeight
    else tv.scrollOffset
  { tv with
      visiblePaths := visiblePathList tv.nodes
      totalContentHeight := total
      scrollOffset := so }

/-- `getNodePrefix` from treeview.go (icon choice for a node); the spinner
branch indexes `waitingIcons` by `SpinnerIndex`, which the spinner keeps
below the icon count. -/
def getNodeIcon (tv : Treeview) (n : TreeNode) : String :=
  if n.ShowSpinner = true ∧ 0 < tv.waitingIcons.length then
    tv.waitingIcons.getD n.SpinnerIndex ""
  else if 0 < n.Children.length then
    if n.ExpandedState = true then tv.expandedIcon else tv.collapsedIcon
  else tv.leafIcon

/-- The rendered row text of a node: `fmt.Sprintf("%s %s", prefix, label)`. -/
def rowLabel (tv : Treeview) (n : TreeNode) : String :=
  getNodeIcon tv n ++ " " ++ n.Label

/-- `findNodeByClick` from treeview.go: map the row to an index into the
cached visible list via the scroll offset, reject out-of-range rows,
recompute the rendered label exactly as drawn (with truncation when
enabled), and accept the click only when `x` lies inside the label's
horizontal span. -/
def findNodeByClick (tv : Treeview) (x y : Int) : Option (Path × TreeNode) :=
  let clickedIndex : Int := y + tv.scrollOffset
  if clickedIndex < 0 ∨ clickedIndex ≥ (tv.visiblePaths.length : Int) then none
  else
    match tv.visiblePaths[clickedIndex.toNat]? with
    | none => none
    | some p =>
        match getAtPath tv.nodes p with
        | none => none
        | some n =>
            let label := rowLabel tv n
            let labelWidth : Int := stringWidth label
            let indentX : Int := n.Level * tv.indentationPerLevel
            let availableWidth := tv.canvasWidth - indentX
            let shownWidth : Int :=
              if tv.truncate = true ∧ labelWidth > availableWidth then
                stringWidth (truncateString label availableWidth)
              else labelWidth
            if indentX ≤ x ∧ x < indentX + shownWidth then some (p, n) else none

/-- `handleNodeClick` from treeview.go: a node with children has its
expansion toggled (followed by `updateTotalHeight`, with no viewport
clamp); a leaf with a callback gets its spinner turned on and an
asynchronous task spawned; the returned error is always `none` (callback
failures are only logged inside the task). -/
def handleNodeClick (tv : Treeview) (p : Path) : Treeview × Option String :=
  match getAtPath tv.nodes p with
  | none => (tv, none)
  | some n =>
      if 0 < n.Children.length then
        let nodes2 := updateAtPath tv.nodes p (fun m => m.SetExpandedState (!m.ExpandedState))
        ({ tv with nodes := nodes2, totalContentHeight := calculateTotalHeight nodes2 }, none)
      else if n.hasOnClick = true then
        ({ tv with
            nodes := updateAtPath tv.nodes p (fun m => m.SetShowSpinner true)
            pendingTasks := tv.pendingTasks ++ [p] }, none)
      else (tv, none)

/-- The asynchronous unit of work spawned by `handleNodeClick` for a leaf:
it runs the callback (whose result is `result`), logs a failure, and
always turns the spinner off. -/
def completeTask (tv : Treeview) (p : Path) (result : Except String Unit) : Treeview :=
  let _ := result
  { tv with
      nodes := updateAtPath tv.nodes p (fun m => m.SetShowSpinner false)
      pendingTasks := tv.pendingTasks.erase p }

/-- `handleMouseClick` from treeview.go: on a hit, select the node and run
`handleNodeClick` (whose error is only logged); always returns `none`. -/
def handleMouseClick (tv : Treeview) (x y : Int) : Treeview × Option String :=
  match findNodeByClick tv x y with
  | some (p, n) =>
      let tv1 := { tv with selectedNode := some ⟨n.ID, n.Label⟩ }
      ((handleNodeClick tv1 p).1, none)
  | none => (tv, none)

/-- Mouse buttons the widget reacts to (`terminalapi.Mouse.Button`). -/
inductive MouseButton : Type where
  | left | release | wheelUp | wheelDown
deriving DecidableEq, Repr

/-- `Mouse` from treeview.go.  `x`, `y` are widget-relative coordinates
(the source subtracts `tv.position` from the absolute ones); `now` is the
event's wall-clock time in milliseconds.  Release events are dropped;
left presses within 100ms of the previously accepted one are dropped;
wheel events shift the scroll offset by `ScrollStep` and re-clamp. -/
def Mouse (tv : Treeview) (b : MouseButton) (x y : Int) (now : Int) :
    Treeview × Option String :=
  match b with
  | .release => (tv, none)
  | .left =>
      if now - tv.lastClickTime < 100 then (tv, none)
      else handleMouseClick { tv with lastClickTime := now } x y
  | .wheelUp =>
      let so := if tv.scrollOffset ≥ ScrollStep then tv.scrollOffset - ScrollStep else 0
      (updateVisibleNodes { tv with scrollOffset := so }, none)
  | .wheelDown =>
      let maxOffset0 := tv.totalContentHeight - tv.canvasHeight
      let maxOffset := if maxOffset0 < 0 then 0 else maxOffset0
      let so :=
        if tv.scrollOffset + ScrollStep ≤ maxOffset then tv.scrollOffset + ScrollStep
        else maxOffset
      (updateVisibleNodes { tv with scrollOffset := so }, none)

/-- `getSelectedNodeIndex` from treeview.go: linear search of the cached
visible list comparing node IDs; `-1` when absent.  (With a nil
`selectedNode` and a nonempty list the Go code would dereference nil; the
reachable-state invariant proved below shows that case never arises, and
the embedding returns `-1` for it.) -/
def getSelectedNodeIndex (tv : Treeview) : Int :=
  match tv.selectedNode with
  | none => -1
  | some sel =>
      match List.findIdx?
          (fun p => ((getAtPath tv.nodes p).map TreeNode.ID) == some sel.ID)
          tv.visiblePaths with
      | some i => (i : Int)
      | none => -1

/-- Set the selection to the node behind entry `i` of the cached visible
list (the embedding of `tv.selectedNode = visibleNodes[i]`). -/
def selectIndex (tv : Treeview) (i : Nat) : Treeview :=
  match tv.visiblePaths[i]? with
  | none => tv
  | some p =>
      match getAtPath tv.nodes p with
      | none => tv
      | some n => { tv with selectedNode := some ⟨n.ID, n.Label⟩ }

/-- Keys the widget reacts to (`terminalapi.Keyboard.Key`). -/
inductive Key : Type where
  | arrowDown | arrowUp | enter | space | other
deriving DecidableEq, Repr

/-- The per-key body of `Keyboard`'s `switch` statement, acting on the
state after fallback and debounce bookkeeping (`idx`/`vlen` are the
current index and visible length computed by `Keyboard`).  The
Enter/Space arm mirrors treeview.go:504-512: it stores
`visibleNodes[currentIndex]` into `tv.selectedNode` (line 508) and then
calls `tv.handleNodeClick(node)` (line 509) — but `Keyboard` still holds
`tv.mu` (locked at line 460 with a deferred unlock) and `handleNodeClick`
begins by locking `tv.mu` again (line 372).  `sync.Mutex` is not
reentrant, so that call deadlocks: the toggle / spinner / goroutine body
of `handleNodeClick` is never reached.  The second component reports this
deadlock; the first is the state the widget's memory holds at the wedge
(selection already rewritten, nothing else changed — and in the program
frozen from then on, since `tv.mu` is never released). -/
def keyboardAct (tv : Treeview) (idx vlen : Int) : Key → Treeview × Option String
  | .arrowDown =>
      (if idx < vlen - 1 then
        let i2 := idx + 1
        let tv3 := selectIndex tv i2.toNat
        if i2 ≥ tv3.scrollOffset + tv3.canvasHeight then
          { tv3 with scrollOffset := i2 - tv3.canvasHeight + 1 }
        else tv3
      else tv, none)
  | .arrowUp =>
      (if idx > 0 then
        let i2 := idx - 1
        let tv3 := selectIndex tv i2.toNat
        if i2 < tv3.scrollOffset then { tv3 with scrollOffset := i2 } else tv3
      else tv, none)
  | .enter =>
      if 0 ≤ idx ∧ idx < vlen then
        let tv3 := selectIndex tv idx.toNat
        match tv3.visiblePaths[idx.toNat]? with
        | some _ => (tv3, some "deadlock: handleNodeClick re-locks tv.mu")
        | none => (tv3, none)
      else (tv, none)
  | .space =>
      if 0 ≤ idx ∧ idx < vlen then
        let tv3 := selectIndex tv idx.toNat
        match tv3.visiblePaths[idx.toNat]? with
        | some _ => (tv3, some "deadlock: handleNodeClick re-locks tv.mu")
        | none => (tv3, none)
      else (tv, none)
  | .other => (tv, none)

/-- `Keyboard` from treeview.go, with the deadlock diagnosis threaded out
of band: recover from a vanished selection by falling back to the first
visible node (returning untouched when nothing is visible), debounce
Enter/Space at 100ms, then run the per-key switch (`keyboardAct`).  The
first component is the Go method's observable outcome — widget state plus
returned error, which is `nil` on every path that does return; the second
component is `keyboardAct`'s deadlock diagnosis, and when it is `some`
the Go call never returns at all. -/
def keyboardRun (tv : Treeview) (k : Key) (now : Int) :
    (Treeview × Option String) × Option String :=
  let vlen : Int := tv.visiblePaths.length
  let idx0 := getSelectedNodeIndex tv
  if idx0 = -1 ∧ tv.visiblePaths = [] then ((tv, none), none)
  else
    let tv1 := if idx0 = -1 then selectIndex tv 0 else tv
    let idx : Int := if idx0 = -1 then 0 else idx0
    if (k = .enter ∨ k = .space) ∧ now - tv1.lastKeyTime < 100 then ((tv1, none), none)
    else
      let tv2 := if k = .enter ∨ k = .space then { tv1 with lastKeyTime := now } else tv1
      let r := keyboardAct tv2 idx vlen k
      ((r.1, none), r.2)

/-- The state-and-return part of `keyboardRun`: what memory holds after
the event, whether or not the call managed to return. -/
def Keyboard (tv : Treeview) (k : Key) (now : Int) : Treeview × Option String :=
  (keyboardRun tv k now).1

/-- `Next` from treeview.go: move the selection one step down the cached
visible list (when the selected node is found and is not last) and scroll
down minimally when the new index leaves the viewport. -/
def Next (tv : Treeview) : Treeview :=
  let vlen : Int := tv.visiblePaths.length
  let idx := getSelectedNodeIndex tv
  if idx ≥ 0 ∧ idx < vlen - 1 then
    let i2 := idx + 1
    let tv3 := selectIndex tv i2.toNat
    if i2 ≥ tv3.scrollOffset + tv3.canvasHeight then
      { tv3 with scrollOffset := i2 - tv3.canvasHeight + 1 }
    else tv3
  else tv

/-- `Previous` from treeview.go: move the selection one step up (when the
selected node is found at a positive index) and scroll up minimally when
the new index leaves the viewport. -/
def Previous (tv : Treeview) : Treeview :=
  let idx := getSelectedNodeIndex tv
  if idx > 0 then
    let i2 := idx - 1
    let tv3 := selectIndex tv i2.toNat
    if i2 < tv3.scrollOffset then { tv3 with scrollOffset := i2 } else tv3
  else tv

/-- `Select` from treeview.go: the selected node's label, or the
"no option selected" error. -/
def Select (tv : Treeview) : Except String String :=
  match tv.selectedNode with
  | some sel => .ok sel.Label
  | none => .error "no option selected"

/-- `Draw` from treeview.go (state effect): refresh the visible list, adopt
the canvas size, fail on a degenerate canvas, then clamp the scroll offset
into `[0, max(0, totalContentHeight − canvasHeight)]`.  Rendering itself
writes to the external canvas and has no further widget-state effect. -/
def Draw (tv : Treeview) (w h : Int) : Treeview × Option String :=
  let tv1 := updateVisibleNodes tv
  let tv2 := { tv1 with canvasWidth := w, canvasHeight := h }
  if w ≤ 0 ∨ h ≤ 0 then (tv2, some "canvas too small")
  else
    let maxScroll0 := tv2.totalContentHeight - h
    let maxScroll := if maxScroll0 < 0 then 0 else maxScroll0
    let so1 := if tv2.scrollOffset > maxScroll then maxScroll else tv2.scrollOffset
    let so2 := if so1 < 0 then 0 else so1
    ({ tv2 with scrollOffset := so2 }, none)

/-- The sub-range of the cached visible list that `Draw` hands to
`drawNode` (`visibleNodes[start:end]`). -/
def nodesToDraw (tv : Treeview) : List Path :=
  (tv.visiblePaths.drop tv.scrollOffset.toNat).take
    ((tv.scrollOffset + tv.canvasHeight - tv.scrollOffset).toNat)

/-- One firing of the `runSpinner` goroutine's tick arm,
treeview.go:180-192.  After taking `tv.mu` (line 181) it walks the
freshly computed `getVisibleNodesList()` (line 182) and, for each visible
node in turn, runs `node.mu.Lock()` (line 184) followed by
`node.GetShowSpinner()` (line 185) — which locks `node.mu` again
(line 54).  `sync.Mutex` is not reentrant, so the tick deadlocks at the
*first* visible node, before ever testing the spinner flag or calling
`IncrementSpinner`: no `SpinnerIndex` advances, on any tick.  With no
visible node the loop body never runs and the tick completes having
touched nothing.  The first component is the (unchanged either way)
memory state; the second is the deadlock diagnosis — when it is `some`,
the goroutine in the program blocks forever still holding `tv.mu`,
freezing the whole widget. -/
def runSpinnerTick (tv : Treeview) : Treeview × Option String :=
  match walkPairs tv.nodes with
  | [] => (tv, none)
  | _ :: _ => (tv, some "deadlock: GetShowSpinner re-locks node.mu")

/-- `New` from treeview.go: apply option defaults, assign IDs and levels,
expand the roots, compute the total height, and select the first visible
node.  The `visibleNodes` cache is *not* populated by `New`. -/
def New (opts : Options) : Treeview :=
  let leafIcon2 := if opts.leafIcon = "" then "→" else opts.leafIcon
  let indent2 := if opts.indentation = 0 then 2 else opts.indentation
  let nodes1 := setParentsAndAssignIDs opts.nodes 0 ""
  let nodes2 := nodes1.map (fun n => n.SetExpandedState true)
  { nodes := nodes2
    selectedNode := (preorderWalk nodes2).head?.map (fun n => ⟨n.ID, n.Label⟩)
    visiblePaths := []
    scrollOffset := 0
    canvasWidth := 0
    canvasHeight := 0
    totalContentHeight := (calculateTotalHeight nodes2 : Int)
    lastClickTime := 0
    lastKeyTime := 0
    pendingTasks := []
    expandedIcon := opts.expandedIcon
    collapsedIcon := opts.collapsedIcon
    leafIcon := leafIcon2
    waitingIcons := opts.waitingIcons
    indentationPerLevel := indent2
    truncate := opts.truncate }

/-! ## Event sequences -/

/-- One externally observable operation on the widget. -/
inductive Op : Type where
  | mouse (b : MouseButton) (x y now : Int)
  | key (k : Key) (now : Int)
  | next
  | previous
  | draw (w h : Int)
  | tick
  | taskDone (p : Path) (ok : Bool)

/-- Apply one operation to the widget state.  For the two operations that
can deadlock (`keyboardRun`, `runSpinnerTick`) this takes the memory
state at the wedge; in the program nothing runs after such a wedge, so
executing the remaining operations of a sequence anyway only enlarges the
set of states the invariants below are proved over. -/
def step (tv : Treeview) : Op → Treeview
  | .mouse b x y now => (Mouse tv b x y now).1
  | .key k now => (Keyboard tv k now).1
  | .next => Next tv
  | .previous => Previous tv
  | .draw w h => (Draw tv w h).1
  | .tick => (runSpinnerTick tv).1
  | .taskDone p ok => completeTask tv p (if ok then .ok () else .error "callback failed")

/-- Run a sequence of operations. -/
def runOps (tv : Treeview) (ops : List Op) : Treeview :=
  ops.foldl step tv

/-- States the widget can actually be in: some construction followed by
some operation sequence. -/
def Reachable (tv : Treeview) : Prop :=
  ∃ opts ops, tv = runOps (New opts) ops

/-! ## Example data used by witnesses and counterexamples -/

/-- A leaf node as a caller builds it (only `Label`, `Children`, `OnClick`
are set before `New`). -/
def builtLeaf (lbl : String) : TreeNode := .mk "" lbl 0 false false 0 false []

/-- A branch node as a caller builds it. -/
def builtBranch (lbl : String) (cs : List TreeNode) : TreeNode :=
  .mk "" lbl 0 false false 0 false cs

/-- The scenario forest from spec.md §8: a root with three children. -/
def exampleForest : List TreeNode :=
  [builtBranch "Root" [builtLeaf "Child1", builtLeaf "Child2", builtLeaf "Child3"]]

/-- The widget right after `New` on `exampleForest` (default options). -/
def exampleTV : Treeview := New { nodes := exampleForest }

/-! ## Claims -/

/-- C2: for every forest (with any expansion flags), the flattened visible
sequence computed by `updateVisibleNodes` equals the depth-first pre-order
walk that always appends a node and descends into its children iff the
node is expanded; the cached path list mirrors the same walk. -/
theorem claim_C2_flatten_is_preorder (forest : List TreeNode) :
    flattenVisible forest = preorderWalk forest ∧
    (walkPairs forest).map Prod.snd = preorderWalk forest := by
  constructor
  · simpa using visitAcc_eq_append [] forest
  · exact walkPairs_snd forest

/-- C4 (code bug): with a started spinner ticker, the first
`StopSpinnerTicker` succeeds, but the second call closes the already
closed stop channel — Go panics instead of the claimed idempotent no-op. -/
theorem claim_C4_second_stop_panics :
    StopSpinnerTicker spinnerCtlAfterNew =
      .ok { tickerStarted := true, stopClosed := true } ∧
    StopSpinnerTicker { tickerStarted := true, stopClosed := true } =
      .error "close of closed channel" := by
  constructor <;> rfl

/-- C9: a left-press within 100ms of the previously accepted left-press is
suppressed completely — the returned state is the input state (selection,
scroll offset, every node's flags and the pending-task list included) and
no error is produced. -/
theorem claim_C9_click_debounce (tv : Treeview) (x y now : Int)
    (h : now - tv.lastClickTime < 100) :
    Mouse tv .left x y now = (tv, none) := by
  unfold Mouse
  simp [h]

theorem claim_C9_click_debounce_witness :
    (50 : Int) - exampleTV.lastClickTime < 100 ∧
    Mouse exampleTV .left 3 0 50 = (exampleTV, none) := by
  have h : (50 : Int) - exampleTV.lastClickTime < 100 := by
    simp [exampleTV, New]
  exact ⟨h, claim_C9_click_debounce exampleTV 3 0 50 h⟩

/-- C6: `Next` is a no-op (selection and scroll offset unchanged — indeed
the whole state) when the selected node sits at the last index of the
visible sequence, and `Previous` is a no-op when it sits at index 0. -/
theorem claim_C6_no_wraparound (tv tv2 : Treeview)
    (hlast : getSelectedNodeIndex tv = (tv.visiblePaths.length : Int) - 1)
    (hfirst : getSelectedNodeIndex tv2 = 0) :
    Next tv = tv ∧ Previous tv2 = tv2 := by
  constructor
  · unfold Next
    rw [hlast]
    rw [if_neg (by omega)]
  · unfold Previous
    rw [hfirst]
    rw [if_neg (by omega)]

/-- A two-root widget state whose selection is the second (last) visible
node; tree shape, IDs and cache are as `New` + `Draw` would produce them. -/
def lastSelectedTV : Treeview :=
  { nodes := [.mk "A" "A" 0 true false 0 false [], .mk "B" "B" 0 true false 0 false []]
    selectedNode := some ⟨"B", "B"⟩
    visiblePaths := [[0], [1]]
    scrollOffset := 0
    canvasWidth := 10
    canvasHeight := 5
    totalContentHeight := 2
    lastClickTime := 0
    lastKeyTime := 0
    pendingTasks := []
    expandedIcon := "▼"
    collapsedIcon := "▶"
    leafIcon := "→"
    waitingIcons := ["◐", "◓", "◑", "◒"]
    indentationPerLevel := 2
    truncate := false }

/-- Like `lastSelectedTV` but with the first visible node selected. -/
def firstSelectedTV : Treeview :=
  { lastSelectedTV with selectedNode := some ⟨"A", "A"⟩ }

theorem claim_C6_no_wraparound_witness :
    (getSelectedNodeIndex lastSelectedTV = (lastSelectedTV.visiblePaths.length : Int) - 1 ∧
      getSelectedNodeIndex firstSelectedTV = 0) ∧
    (Next lastSelectedTV = lastSelectedTV ∧ Previous firstSelectedTV = firstSelectedTV) := by
  have h1 : getSelectedNodeIndex lastSelectedTV = (lastSelectedTV.visiblePaths.length : Int) - 1 := by
    simp [lastSelectedTV, getSelectedNodeIndex, getAtPath, List.findIdx?]
  have h2 : getSelectedNodeIndex firstSelectedTV = 0 := by
    simp [firstSelectedTV, lastSelectedTV, getSelectedNodeIndex, getAtPath, List.findIdx?]
  exact ⟨⟨h1, h2⟩, claim_C6_no_wraparound lastSelectedTV firstSelectedTV h1 h2⟩

/-- C8 (counterexample): at available width 0 (reachable: `availableWidth`
is `canvasWidth − indentX` and may be ≤ 0), the string "ab" does not fit,
yet the truncated result is the bare ellipsis of display width 1 > 0 — the
claimed bound "display width (including the ellipsis) does not exceed w"
fails. -/
theorem claim_C8_counterexample :
    ¬((stringWidth "ab" : Int) ≤ 0) ∧
    truncateString "ab" 0 = ellipsis ∧
    ¬((stringWidth (truncateString "ab" 0) : Int) ≤ 0) := by
  refine ⟨by decide, by decide, by decide⟩

/-- C8 (amended: the width bound additionally needs `1 ≤ w`, i.e. room for
the ellipsis): a string whose display width fits in `w` is returned
byte-identical; otherwise the result ends in the ellipsis and, provided
`1 ≤ w`, its display width (ellipsis included) does not exceed `w`. -/
theorem claim_C8_truncation (s : String) (w : Int) (hw : 1 ≤ w) :
    ((stringWidth s : Int) ≤ w → truncateString s w = s) ∧
    (¬((stringWidth s : Int) ≤ w) →
      (∃ t, truncateString s w = t ++ ellipsis) ∧
      (stringWidth (truncateString s w) : Int) ≤ w) := by
  constructor
  · intro hle
    unfold truncateString
    rw [if_pos hle]
  · intro hgt
    unfold truncateString
    rw [if_neg hgt]
    refine ⟨⟨String.mk (truncLoop w s.data 0), rfl⟩, ?_⟩
    rw [stringWidth_append]
    have hellip : stringWidth ellipsis = 1 := by decide
    have hbound := truncLoop_width w s.data 0 (by rw [hellip]; push_cast; omega)
    have hmk : stringWidth (String.mk (truncLoop w s.data 0))
        = ((truncLoop w s.data 0).map runeWidth).sum := rfl
    rw [hmk]
    push_cast at hbound ⊢
    omega

theorem claim_C8_truncation_witness :
    (1 : Int) ≤ 3 ∧
    (¬((stringWidth "hello" : Int) ≤ 3)) ∧
    (∃ t, truncateString "hello" 3 = t ++ ellipsis) ∧
    (stringWidth (truncateString "hello" 3) : Int) ≤ 3 := by
  have h := claim_C8_truncation "hello" 3 (by decide)
  have hgt : ¬((stringWidth "hello" : Int) ≤ 3) := by decide
  exact ⟨by decide, hgt, (h.2 hgt).1, (h.2 hgt).2⟩

/-- Reading back through the very path just written: the update function is
applied to the node the path denotes. -/
theorem getAtPath_updateAtPath_self (fs : List TreeNode) (p : Path) (f : TreeNode → TreeNode) :
    getAtPath (updateAtPath fs p f) p = (getAtPath fs p).map f := by
  induction fs, p, f using updateAtPath.induct <;> simp_all [updateAtPath]

@[simp] theorem SetShowSpinner_ShowSpinner (n : TreeNode) (v : Bool) :
    (n.SetShowSpinner v).ShowSpinner = v := by
  cases n; rfl

@[simp] theorem SetShowSpinner_SpinnerIndex (n : TreeNode) (v : Bool) :
    (n.SetShowSpinner v).SpinnerIndex = if v then n.SpinnerIndex else 0 := by
  cases n; rfl

/-- A widget state with all-default configuration (helper for spelling out
concrete states). -/
def mkTV (nodes : List TreeNode) (sel : Option SelRef) (vp : List Path)
    (so cw ch total lc lk : Int) (pend : List Path) : Treeview :=
  { nodes := nodes, selectedNode := sel, visiblePaths := vp, scrollOffset := so,
    canvasWidth := cw, canvasHeight := ch, totalContentHeight := total,
    lastClickTime := lc, lastKeyTime := lk, pendingTasks := pend,
    expandedIcon := "▼", collapsedIcon := "▶", leafIcon := "→",
    waitingIcons := ["◐", "◓", "◑", "◒"], indentationPerLevel := 2, truncate := false }

/-- Forest for the C1 scenario: two roots with three leaf children each
(8 visible rows once `New` expands the roots). -/
def c1Forest : List TreeNode :=
  [builtBranch "RootA" [builtLeaf "A1", builtLeaf "A2", builtLeaf "A3"],
   builtBranch "RootB" [builtLeaf "B1", builtLeaf "B2", builtLeaf "B3"]]

/-- The C1 forest after `New`: IDs and levels assigned, roots expanded. -/
def c1Nodes0 : List TreeNode :=
  [.mk "RootA" "RootA" 0 true false 0 false
    [.mk "RootA/A1" "A1" 1 false false 0 false [],
     .mk "RootA/A2" "A2" 1 false false 0 false [],
     .mk "RootA/A3" "A3" 1 false false 0 false []],
   .mk "RootB" "RootB" 0 true false 0 false
    [.mk "RootB/B1" "B1" 1 false false 0 false [],
     .mk "RootB/B2" "B2" 1 false false 0 false [],
     .mk "RootB/B3" "B3" 1 false false 0 false []]]

/-- The C1 forest after the click collapsed RootB. -/
def c1Nodes1 : List TreeNode :=
  [.mk "RootA" "RootA" 0 true false 0 false
    [.mk "RootA/A1" "A1" 1 false false 0 false [],
     .mk "RootA/A2" "A2" 1 false false 0 false [],
     .mk "RootA/A3" "A3" 1 false false 0 false []],
   .mk "RootB" "RootB" 0 false false 0 false
    [.mk "RootB/B1" "B1" 1 false false 0 false [],
     .mk "RootB/B2" "B2" 1 false false 0 false [],
     .mk "RootB/B3" "B3" 1 false false 0 false []]]

/-- The visible-list cache after the first draw: all 8 rows. -/
def c1Paths : List Path :=
  [[0], [0, 0], [0, 1], [0, 2], [1], [1, 0], [1, 1], [1, 2]]

/-- The C1 scenario, driven entirely through the live mouse path (the
keyboard Enter path would deadlock before reaching the toggle — see
`keyboardAct`): `New`, a draw on a 4-row canvas, one wheel-down (offset
becomes 4 = 8 − 4, putting RootB on the top row), then a left click on
RootB's row, collapsing it (visible count drops to 5). -/
def c1AfterToggle : Treeview :=
  step (step (step (New { nodes := c1Forest }) (.draw 10 4))
    (.mouse .wheelDown 0 0 100)) (.mouse .left 2 0 200)

theorem c1AfterToggle_eval :
    c1AfterToggle = mkTV c1Nodes1 (some ⟨"RootB", "RootB"⟩) c1Paths 4 10 4 5 200 0 [] := by
  have h0 : New { nodes := c1Forest } =
      mkTV c1Nodes0 (some ⟨"RootA", "RootA"⟩) [] 0 0 0 8 0 0 [] := by
    simp [New, c1Forest, builtBranch, builtLeaf, setParentsAndAssignIDs, generateNodeID,
          TreeNode.SetExpandedState, preorderWalk, calculateTotalHeight, mkTV, c1Nodes0]
  have h1 : step (mkTV c1Nodes0 (some ⟨"RootA", "RootA"⟩) [] 0 0 0 8 0 0 []) (.draw 10 4) =
      mkTV c1Nodes0 (some ⟨"RootA", "RootA"⟩) c1Paths 0 10 4 8 0 0 [] := by
    simp [step, Draw, updateVisibleNodes, flattenVisible, visitAcc, visiblePathList,
          walkPairs, mkTV, c1Nodes0, c1Paths]
  have h2 : step (mkTV c1Nodes0 (some ⟨"RootA", "RootA"⟩) c1Paths 0 10 4 8 0 0 [])
        (.mouse .wheelDown 0 0 100) =
      mkTV c1Nodes0 (some ⟨"RootA", "RootA"⟩) c1Paths 4 10 4 8 0 0 [] := by
    simp [step, Mouse, ScrollStep, updateVisibleNodes, flattenVisible, visitAcc,
          visiblePathList, walkPairs, mkTV, c1Nodes0, c1Paths]
  have h3 : step (mkTV c1Nodes0 (some ⟨"RootA", "RootA"⟩) c1Paths 4 10 4 8 0 0 [])
        (.mouse .left 2 0 200) =
      mkTV c1Nodes1 (some ⟨"RootB", "RootB"⟩) c1Paths 4 10 4 5 200 0 [] := by
    simp [step, Mouse, handleMouseClick, findNodeByClick, rowLabel, getNodeIcon,
          stringWidth, runeWidth, handleNodeClick, getAtPath, updateAtPath,
          calculateTotalHeight, TreeNode.SetExpandedState, mkTV, c1Nodes0, c1Nodes1,
          c1Paths]
  unfold c1AfterToggle
  rw [h0, h1, h2, h3]

/-- C1 (code bug): after the mouse-driven expansion toggle the scroll
offset is still 4 while the flattened visible sequence has length 5 and
the canvas height is 4, so `scrollOffset ≤ max(0, totalVisibleCount −
canvasHeight)` fails: `handleNodeClick` runs `updateTotalHeight` but
never re-clamps the viewport (spec.md §5 calls exactly this omission out
as a correctness bug).  The toggle is exercised through the mouse path,
which is live — `Mouse` releases `tv.mu` before `handleMouseClick`;
keyboard activation would deadlock before toggling anything. -/
theorem claim_C1_toggle_skips_clamp :
    c1AfterToggle.scrollOffset = 4 ∧
    (flattenVisible c1AfterToggle.nodes).length = 5 ∧
    c1AfterToggle.canvasHeight = 4 ∧
    ¬(c1AfterToggle.scrollOffset ≤
        max 0 (((flattenVisible c1AfterToggle.nodes).length : Int) - c1AfterToggle.canvasHeight)) := by
  have h : c1AfterToggle.scrollOffset = 4 ∧
      (flattenVisible c1AfterToggle.nodes).length = 5 ∧
      c1AfterToggle.canvasHeight = 4 := by
    rw [c1AfterToggle_eval]
    refine ⟨rfl, ?_, rfl⟩
    simp [flattenVisible, visitAcc, mkTV, c1Nodes1]
  refine ⟨h.1, h.2.1, h.2.2, ?_⟩
  rw [h.1, h.2.1, h.2.2]
  decide

/-- A leaf built by the caller with an `OnClick` callback attached. -/
def builtLeafClick (lbl : String) : TreeNode := .mk "" lbl 0 false false 0 true []

/-- A root with a single callback-carrying leaf child. -/
def callbackForest : List TreeNode := [builtBranch "Root" [builtLeafClick "L"]]

/-- The callback forest after `New`: IDs and levels assigned, Root
expanded, the leaf idle. -/
def cbNodes0 : List TreeNode :=
  [.mk "Root" "Root" 0 true false 0 false [.mk "Root/L" "L" 1 false false 0 true []]]

/-- … after a mouse click on the leaf: its spinner is on. -/
def cbNodes1 : List TreeNode :=
  [.mk "Root" "Root" 0 true false 0 false [.mk "Root/L" "L" 1 false true 0 true []]]

/-- The busy leaf node value inside `cbNodes1`. -/
def busyLeafLit : TreeNode := .mk "Root/L" "L" 1 false true 0 true []

theorem callbackNew_eval :
    New { nodes := callbackForest } =
      mkTV cbNodes0 (some ⟨"Root", "Root"⟩) [] 0 0 0 2 0 0 [] := by
  simp [New, callbackForest, builtBranch, builtLeafClick, setParentsAndAssignIDs,
        generateNodeID, TreeNode.SetExpandedState, preorderWalk, calculateTotalHeight,
        mkTV, cbNodes0]

theorem callbackDraw_eval :
    step (mkTV cbNodes0 (some ⟨"Root", "Root"⟩) [] 0 0 0 2 0 0 []) (.draw 10 5) =
      mkTV cbNodes0 (some ⟨"Root", "Root"⟩) [[0], [0, 0]] 0 10 5 2 0 0 [] := by
  simp [step, Draw, updateVisibleNodes, flattenVisible, visitAcc, visiblePathList,
        walkPairs, mkTV, cbNodes0]

/-- The C3 failing state: `New` on the callback forest, a draw (cache
[Root, leaf]), then arrow-down — the callback leaf is now selected,
visible at index 1, and idle (spinner off, frame 0). -/
def c3KbdSel : Treeview :=
  step (step (New { nodes := callbackForest }) (.draw 10 5)) (.key .arrowDown 100)

theorem c3KbdSel_eval :
    c3KbdSel = mkTV cbNodes0 (some ⟨"Root/L", "L"⟩) [[0], [0, 0]] 0 10 5 2 0 0 [] := by
  have h2 : step (mkTV cbNodes0 (some ⟨"Root", "Root"⟩) [[0], [0, 0]] 0 10 5 2 0 0 [])
        (.key .arrowDown 100) =
      mkTV cbNodes0 (some ⟨"Root/L", "L"⟩) [[0], [0, 0]] 0 10 5 2 0 0 [] := by
    simp [step, Keyboard, keyboardRun, keyboardAct, getSelectedNodeIndex, List.findIdx?,
          selectIndex, getAtPath, mkTV, cbNodes0]
  unfold c3KbdSel
  rw [callbackNew_eval, callbackDraw_eval, h2]

/-- C3 (code bug): pressing Enter on the selected, visible callback leaf —
the activation the claim describes — never performs it.  `Keyboard` holds
`tv.mu` and `handleNodeClick` re-locks it, so the call deadlocks right
after the selection update: the busy flag is never set, no callback task
is ever spawned, and the activation call never returns — contradicting
the claim's "sets the node's busy flag to true … before the activation
call returns" and "then runs the callback asynchronously".  (The mouse
half of activation does behave as claimed — `Mouse` releases `tv.mu`
before calling `handleMouseClick` — and frame indices are 0 in every
execution since no tick ever completes an increment, so the "resets … to
0" reading is never violated; the keyboard half is the slip, and spec
§4.6 explicitly says Enter "runs the activation".) -/
theorem claim_C3_keyboard_activation_deadlock :
    (getAtPath c3KbdSel.nodes [0, 0]).map TreeNode.hasOnClick = some true ∧
    (getAtPath c3KbdSel.nodes [0, 0]).map TreeNode.Children = some [] ∧
    (getAtPath c3KbdSel.nodes [0, 0]).map TreeNode.ShowSpinner = some false ∧
    c3KbdSel.selectedNode = some ⟨"Root/L", "L"⟩ ∧
    (keyboardRun c3KbdSel .enter 300).2 = some "deadlock: handleNodeClick re-locks tv.mu" ∧
    (getAtPath (Keyboard c3KbdSel .enter 300).1.nodes [0, 0]).map TreeNode.ShowSpinner =
      some false ∧
    (Keyboard c3KbdSel .enter 300).1.pendingTasks = [] := by
  rw [c3KbdSel_eval]
  refine ⟨?_, ?_, ?_, rfl, ?_, ?_, ?_⟩ <;>
    simp [Keyboard, keyboardRun, keyboardAct, getSelectedNodeIndex, List.findIdx?,
          selectIndex, getAtPath, mkTV, cbNodes0]

/-- Forest for the C5 scenario: Root with a built-expanded child A (itself
holding leaf G) and leaf B. -/
def c5Forest : List TreeNode :=
  [builtBranch "Root" [.mk "" "A" 0 true false 0 false [builtLeaf "G"], builtLeaf "B"]]

/-- The C5 forest after `New`: IDs and levels assigned, Root expanded. -/
def c5Nodes0 : List TreeNode :=
  [.mk "Root" "Root" 0 true false 0 false
    [.mk "Root/A" "A" 1 true false 0 false [.mk "Root/A/G" "G" 2 false false 0 false []],
     .mk "Root/B" "B" 1 false false 0 false []]]

/-- The C5 forest after the click collapsed A. -/
def c5Nodes1 : List TreeNode :=
  [.mk "Root" "Root" 0 true false 0 false
    [.mk "Root/A" "A" 1 false false 0 false [.mk "Root/A/G" "G" 2 false false 0 false []],
     .mk "Root/B" "B" 1 false false 0 false []]]

/-- C5 scenario run: draw (cache [Root, A, G, B]), mouse-click A's row
(selects A and collapses it; the cache stays stale), arrow-down through
the stale cache (selects the now-hidden G), then a draw that refreshes the
cache to [Root, A, B] — leaving the selected node absent from the visible
sequence. -/
def c5Stale : Treeview :=
  runOps (New { nodes := c5Forest })
    [.draw 10 10, .mouse .left 3 1 200, .key .arrowDown 300, .draw 10 10]

/-- The final state of the C5 run, spelled out. -/
def c5StaleLit : Treeview :=
  mkTV c5Nodes1 (some ⟨"Root/A/G", "G"⟩) [[0], [0, 0], [0, 1]] 0 10 10 3 200 0 []

theorem c5Stale_eval : c5Stale = c5StaleLit := by
  have h0 : New { nodes := c5Forest } =
      mkTV c5Nodes0 (some ⟨"Root", "Root"⟩) [] 0 0 0 4 0 0 [] := by
    simp [New, c5Forest, builtBranch, builtLeaf, setParentsAndAssignIDs, generateNodeID,
          TreeNode.SetExpandedState, preorderWalk, calculateTotalHeight, mkTV, c5Nodes0]
  have h1 : step (mkTV c5Nodes0 (some ⟨"Root", "Root"⟩) [] 0 0 0 4 0 0 []) (.draw 10 10) =
      mkTV c5Nodes0 (some ⟨"Root", "Root"⟩) [[0], [0, 0], [0, 0, 0], [0, 1]] 0 10 10 4 0 0 [] := by
    simp [step, Draw, updateVisibleNodes, flattenVisible, visitAcc, visiblePathList,
          walkPairs, mkTV, c5Nodes0]
  have h2 : step (mkTV c5Nodes0 (some ⟨"Root", "Root"⟩) [[0], [0, 0], [0, 0, 0], [0, 1]]
        0 10 10 4 0 0 []) (.mouse .left 3 1 200) =
      mkTV c5Nodes1 (some ⟨"Root/A", "A"⟩) [[0], [0, 0], [0, 0, 0], [0, 1]] 0 10 10 3 200 0 [] := by
    simp [step, Mouse, handleMouseClick, findNodeByClick, rowLabel, getNodeIcon,
          stringWidth, runeWidth, handleNodeClick, getAtPath, updateAtPath,
          calculateTotalHeight, TreeNode.SetExpandedState, mkTV, c5Nodes0, c5Nodes1]
  have h3 : step (mkTV c5Nodes1 (some ⟨"Root/A", "A"⟩) [[0], [0, 0], [0, 0, 0], [0, 1]]
        0 10 10 3 200 0 []) (.key .arrowDown 300) =
      mkTV c5Nodes1 (some ⟨"Root/A/G", "G"⟩) [[0], [0, 0], [0, 0, 0], [0, 1]] 0 10 10 3 200 0 [] := by
    simp [step, Keyboard, keyboardRun, keyboardAct, getSelectedNodeIndex, List.findIdx?,
          selectIndex, getAtPath, mkTV, c5Nodes1]
  have h4 : step (mkTV c5Nodes1 (some ⟨"Root/A/G", "G"⟩) [[0], [0, 0], [0, 0, 0], [0, 1]]
        0 10 10 3 200 0 []) (.draw 10 10) = c5StaleLit := by
    simp [step, Draw, updateVisibleNodes, flattenVisible, visitAcc, visiblePathList,
          walkPairs, mkTV, c5Nodes1, c5StaleLit]
  show runOps _ _ = _
  rw [runOps]
  simp only [List.foldl_cons, List.foldl_nil]
  rw [h0, h1, h2, h3, h4]

/-- C5 (counterexample): with the selection absent from the visible
sequence (`IndexOf = −1`) and the sequence non-empty (first visible node is
Root), `Next()` does not fall back to the first visible node — it leaves
the whole state, the hidden selection included, unchanged. -/
theorem claim_C5_counterexample :
    getSelectedNodeIndex c5Stale = -1 ∧
    c5Stale.visiblePaths ≠ [] ∧
    (getAtPath c5Stale.nodes (c5Stale.visiblePaths.headD [])).map TreeNode.ID = some "Root" ∧
    (Next c5Stale).selectedNode = some ⟨"Root/A/G", "G"⟩ ∧
    Next c5Stale = c5Stale := by
  rw [c5Stale_eval]
  have hidx : getSelectedNodeIndex c5StaleLit = -1 := by
    simp [getSelectedNodeIndex, List.findIdx?, getAtPath, c5StaleLit, c5Nodes1, mkTV]
  have hnoop : Next c5StaleLit = c5StaleLit := by
    unfold Next
    rw [hidx]
    rw [if_neg (by omega)]
  refine ⟨hidx, ?_, ?_, ?_, hnoop⟩
  · simp [c5StaleLit, mkTV]
  · simp [c5StaleLit, mkTV, c5Nodes1, getAtPath]
  · rw [hnoop]
    simp [c5StaleLit, mkTV]

/-- C5 (amended: only the keyboard handler falls back): when the selected
node is not in the visible sequence, `Next` and `Previous` leave the state
unchanged (no fallback), while keyboard handling returns untouched on an
empty sequence and otherwise first resets the selection to the first
visible node (shown for a key with no further action). -/
theorem claim_C5_lookup_fallback (tv : Treeview) (h : getSelectedNodeIndex tv = -1) :
    Next tv = tv ∧ Previous tv = tv ∧
    (∀ k now, tv.visiblePaths = [] → Keyboard tv k now = (tv, none)) ∧
    (∀ now p n, tv.visiblePaths.head? = some p → getAtPath tv.nodes p = some n →
      ((Keyboard tv .other now).1).selectedNode = some ⟨n.ID, n.Label⟩) := by
  refine ⟨?_, ?_, ?_, ?_⟩
  · unfold Next
    rw [h]
    rw [if_neg (by omega)]
  · unfold Previous
    rw [h]
    rw [if_neg (by omega)]
  · intro k now hcache
    unfold Keyboard keyboardRun
    rw [h]
    simp [hcache]
  · intro now p n hp hn
    obtain ⟨t, hvp⟩ : ∃ t, tv.visiblePaths = p :: t := by
      cases hv : tv.visiblePaths with
      | nil => rw [hv] at hp; simp at hp
      | cons a t =>
          rw [hv] at hp
          simp at hp
          exact ⟨t, by rw [hp]⟩
    unfold Keyboard keyboardRun
    rw [h]
    simp [hvp, keyboardAct, selectIndex, hn]

theorem claim_C5_lookup_fallback_witness :
    getSelectedNodeIndex c5Stale = -1 ∧
    Next c5Stale = c5Stale ∧ Previous c5Stale = c5Stale := by
  have h : getSelectedNodeIndex c5Stale = -1 := by
    rw [c5Stale_eval]
    simp [getSelectedNodeIndex, List.findIdx?, getAtPath, c5StaleLit, c5Nodes1, mkTV]
  exact ⟨h, (claim_C5_lookup_fallback c5Stale h).1,
    (claim_C5_lookup_fallback c5Stale h).2.1⟩

/-! ## The spinner tick (C7) -/

/-- Draw, then click the callback leaf through the (live) mouse path: the
leaf is busy (spinner on, frame 0) and visible, with the default four
waiting icons configured. -/
def c7Visible : Treeview :=
  step (step (New { nodes := callbackForest }) (.draw 10 5)) (.mouse .left 3 1 200)

theorem c7Visible_eval :
    c7Visible = mkTV cbNodes1 (some ⟨"Root/L", "L"⟩) [[0], [0, 0]] 0 10 5 2 200 0 [[0, 0]] := by
  have h2 : step (mkTV cbNodes0 (some ⟨"Root", "Root"⟩) [[0], [0, 0]] 0 10 5 2 0 0 [])
        (.mouse .left 3 1 200) =
      mkTV cbNodes1 (some ⟨"Root/L", "L"⟩) [[0], [0, 0]] 0 10 5 2 200 0 [[0, 0]] := by
    simp [step, Mouse, handleMouseClick, findNodeByClick, rowLabel, getNodeIcon,
          stringWidth, runeWidth, handleNodeClick, getAtPath, updateAtPath,
          calculateTotalHeight, TreeNode.SetShowSpinner, mkTV, cbNodes0, cbNodes1]
  unfold c7Visible
  rw [callbackNew_eval, callbackDraw_eval, h2]

/-- C7 (code bug): the spinner tick never advances any frame.  In
`c7Visible` the leaf is busy with frame 0 and visible, and four icons are
configured, so the claim requires a tick to advance its frame to
`(0 + 1) % 4 = 1` — but the tick deadlocks at the first visible node
(`node.mu` is already locked when `GetShowSpinner` locks it again),
before any `IncrementSpinner` runs, leaving the frame at 0.  The
repository's own `TestRunSpinner` (treeview_test.go) expects the
increment, so the code, not the claim, is the slip. -/
theorem claim_C7_tick_never_advances :
    getAtPath c7Visible.nodes [0, 0] = some busyLeafLit ∧
    busyLeafLit.ShowSpinner = true ∧
    busyLeafLit.SpinnerIndex = 0 ∧
    c7Visible.waitingIcons.length = 4 ∧
    runSpinnerTick c7Visible =
      (c7Visible, some "deadlock: GetShowSpinner re-locks node.mu") ∧
    (getAtPath (runSpinnerTick c7Visible).1.nodes [0, 0]).map TreeNode.SpinnerIndex =
      some 0 ∧
    ¬((getAtPath (runSpinnerTick c7Visible).1.nodes [0, 0]).map TreeNode.SpinnerIndex =
        some ((0 + 1) % 4)) := by
  refine ⟨?_, by decide, by decide, ?_, ?_, ?_, ?_⟩ <;>
    rw [c7Visible_eval] <;>
    simp [runSpinnerTick, walkPairs, getAtPath, mkTV, cbNodes1, busyLeafLit]

/-! ## The selection invariant (C10) -/

/-- The invariant behind C10: the selection is empty exactly for an empty
forest, and an empty forest always comes with an empty visible-list
cache. -/
def SelectionInv (tv : Treeview) : Prop :=
  (tv.selectedNode = none ↔ tv.nodes = []) ∧ (tv.nodes = [] → tv.visiblePaths = [])

@[simp] theorem visiblePathList_nil : visiblePathList [] = [] := by
  simp [visiblePathList, walkPairs]

theorem preorderWalk_eq_nil_iff (fs : List TreeNode) : preorderWalk fs = [] ↔ fs = [] := by
  cases fs with
  | nil => simp [preorderWalk]
  | cons n rest =>
      cases n
      rw [preorderWalk]
      simp

theorem updateAtPath_nil (p : Path) (f : TreeNode → TreeNode) :
    updateAtPath [] p f = [] := by
  cases p <;> rw [updateAtPath]

theorem updateAtPath_eq_nil_iff (fs : List TreeNode) (p : Path) (f : TreeNode → TreeNode) :
    updateAtPath fs p f = [] ↔ fs = [] := by
  constructor
  · intro h
    have hl := length_updateAtPath fs p f
    rw [h] at hl
    exact List.length_eq_zero.mp hl.symm
  · intro h
    subst h
    exact updateAtPath_nil p f

/-- `handleNodeClick` never touches the selection or the cache, and
preserves forest emptiness. -/
theorem handleNodeClick_frame (tv : Treeview) (p : Path) :
    (handleNodeClick tv p).1.selectedNode = tv.selectedNode ∧
    (handleNodeClick tv p).1.visiblePaths = tv.visiblePaths ∧
    ((handleNodeClick tv p).1.nodes = [] ↔ tv.nodes = []) := by
  unfold handleNodeClick
  cases hg : getAtPath tv.nodes p with
  | none => simp
  | some n =>
      by_cases hc : 0 < n.Children.length
      · simp [hc, updateAtPath_eq_nil_iff]
      · by_cases hcb : n.hasOnClick = true
        · simp [hc, hcb, updateAtPath_eq_nil_iff]
        · simp [hc, hcb]

/-- `selectIndex` only ever rewrites the selection to some node, leaving
forest and cache alone. -/
theorem selectIndex_frame (tv : Treeview) (i : Nat) :
    (selectIndex tv i).nodes = tv.nodes ∧
    (selectIndex tv i).visiblePaths = tv.visiblePaths ∧
    ((selectIndex tv i).selectedNode = tv.selectedNode ∨
      ∃ r, (selectIndex tv i).selectedNode = some r) := by
  unfold selectIndex
  cases hp : tv.visiblePaths[i]? with
  | none => simp
  | some p =>
      cases hg : getAtPath tv.nodes p with
      | none => simp [hg]
      | some n => simp [hg]

/-- `updateVisibleNodes` recomputes the cache from the forest and keeps
forest and selection. -/
theorem updateVisibleNodes_frame (tv : Treeview) :
    (updateVisibleNodes tv).nodes = tv.nodes ∧
    (updateVisibleNodes tv).selectedNode = tv.selectedNode ∧
    (updateVisibleNodes tv).visiblePaths = visiblePathList tv.nodes := by
  unfold updateVisibleNodes
  refine ⟨rfl, rfl, rfl⟩

@[simp] theorem selectIndex_nodes (tv : Treeview) (i : Nat) :
    (selectIndex tv i).nodes = tv.nodes := (selectIndex_frame tv i).1

@[simp] theorem selectIndex_visible (tv : Treeview) (i : Nat) :
    (selectIndex tv i).visiblePaths = tv.visiblePaths := (selectIndex_frame tv i).2.1

@[simp] theorem handleNodeClick_selected (tv : Treeview) (p : Path) :
    (handleNodeClick tv p).1.selectedNode = tv.selectedNode := (handleNodeClick_frame tv p).1

@[simp] theorem handleNodeClick_visible (tv : Treeview) (p : Path) :
    (handleNodeClick tv p).1.visiblePaths = tv.visiblePaths := (handleNodeClick_frame tv p).2.1

@[simp] theorem handleNodeClick_nodes_nil (tv : Treeview) (p : Path) :
    ((handleNodeClick tv p).1.nodes = [] ↔ tv.nodes = []) := (handleNodeClick_frame tv p).2.2

@[simp] theorem updateVisibleNodes_nodes (tv : Treeview) :
    (updateVisibleNodes tv).nodes = tv.nodes := (updateVisibleNodes_frame tv).1

@[simp] theorem updateVisibleNodes_selected (tv : Treeview) :
    (updateVisibleNodes tv).selectedNode = tv.selectedNode := (updateVisibleNodes_frame tv).2.1

@[simp] theorem updateVisibleNodes_visible (tv : Treeview) :
    (updateVisibleNodes tv).visiblePaths = visiblePathList tv.nodes :=
  (updateVisibleNodes_frame tv).2.2

theorem selectIndex_selected_none (tv : Treeview) (i : Nat)
    (h : (selectIndex tv i).selectedNode = none) : tv.selectedNode = none := by
  rcases (selectIndex_frame tv i).2.2 with he | ⟨r, hr⟩
  · rw [← he]; exact h
  · rw [hr] at h; exact absurd h (by simp)

theorem keyboardAct_nodes_nil (tv : Treeview) (idx vlen : Int) (k : Key) :
    ((keyboardAct tv idx vlen k).1.nodes = [] ↔ tv.nodes = []) := by
  cases k <;> simp only [keyboardAct] <;> repeat' split
  all_goals simp

theorem keyboardAct_visible (tv : Treeview) (idx vlen : Int) (k : Key) :
    (keyboardAct tv idx vlen k).1.visiblePaths = tv.visiblePaths := by
  cases k <;> simp only [keyboardAct] <;> repeat' split
  all_goals simp

theorem keyboardAct_selected_none (tv : Treeview) (idx vlen : Int) (k : Key)
    (h : (keyboardAct tv idx vlen k).1.selectedNode = none) : tv.selectedNode = none := by
  revert h
  cases k <;> simp only [keyboardAct] <;> repeat' split
  all_goals
    intro h
    first
      | exact h
      | exact selectIndex_selected_none _ _ (by simpa using h)

theorem Keyboard_nodes_nil (tv : Treeview) (k : Key) (now : Int) :
    ((Keyboard tv k now).1.nodes = [] ↔ tv.nodes = []) := by
  simp only [Keyboard, keyboardRun]
  by_cases hguard : getSelectedNodeIndex tv = -1 ∧ tv.visiblePaths = []
  · rw [if_pos hguard]
  · rw [if_neg hguard]
    by_cases hidx : getSelectedNodeIndex tv = -1 <;>
      simp only [hidx, if_true, if_false] <;>
      split <;>
      simp [keyboardAct_nodes_nil, apply_ite Treeview.nodes]

theorem Keyboard_visible (tv : Treeview) (k : Key) (now : Int) :
    (Keyboard tv k now).1.visiblePaths = tv.visiblePaths := by
  simp only [Keyboard, keyboardRun]
  by_cases hguard : getSelectedNodeIndex tv = -1 ∧ tv.visiblePaths = []
  · rw [if_pos hguard]
  · rw [if_neg hguard]
    by_cases hidx : getSelectedNodeIndex tv = -1 <;>
      simp only [hidx, if_true, if_false] <;>
      split <;>
      simp [keyboardAct_visible, apply_ite Treeview.visiblePaths]

theorem Keyboard_selected_none (tv : Treeview) (k : Key) (now : Int)
    (h : (Keyboard tv k now).1.selectedNode = none) : tv.selectedNode = none := by
  revert h
  simp only [Keyboard, keyboardRun]
  by_cases hguard : getSelectedNodeIndex tv = -1 ∧ tv.visiblePaths = []
  · rw [if_pos hguard]
    exact id
  · rw [if_neg hguard]
    by_cases hidx : getSelectedNodeIndex tv = -1 <;>
      simp only [hidx, if_true, if_false] <;>
      split <;>
      intro h
    · exact selectIndex_selected_none _ _ h
    · have h2 := keyboardAct_selected_none _ _ _ _ h
      refine selectIndex_selected_none tv 0 ?_
      revert h2
      split <;> simp
    · exact h
    · have h2 := keyboardAct_selected_none _ _ _ _ h
      revert h2
      split <;> simp



theorem findNodeByClick_nil (tv : Treeview) (x y : Int) (hc : tv.visiblePaths = []) :
    findNodeByClick tv x y = none := by
  unfold findNodeByClick
  rw [hc]
  simp only [List.length_nil, Nat.cast_zero]
  rw [if_pos (by omega)]

theorem step_nodes_nil (tv : Treeview) (op : Op) :
    (step tv op).nodes = [] ↔ tv.nodes = [] := by
  cases op with
  | mouse b x y now =>
      cases b
      · simp only [step, Mouse]
        by_cases hd : now - tv.lastClickTime < 100
        · rw [if_pos hd]
        · rw [if_neg hd]
          simp only [handleMouseClick]
          cases hf : findNodeByClick { tv with lastClickTime := now } x y with
          | none => simp
          | some pn => cases pn; simp
      · exact Iff.rfl
      · simp [step, Mouse]
      · simp [step, Mouse]
  | key k now => exact Keyboard_nodes_nil tv k now
  | next =>
      simp only [step, Next]
      repeat' split
      all_goals simp
  | previous =>
      simp only [step, Previous]
      repeat' split
      all_goals simp
  | draw w h =>
      simp only [step, Draw]
      repeat' split
      all_goals simp
  | tick =>
      simp only [step, runSpinnerTick]
      split <;> simp
  | taskDone p ok => simp [step, completeTask, updateAtPath_eq_nil_iff]

theorem step_selected_none (tv : Treeview) (op : Op)
    (h : (step tv op).selectedNode = none) : tv.selectedNode = none := by
  revert h
  cases op with
  | mouse b x y now =>
      cases b
      · simp only [step, Mouse]
        by_cases hd : now - tv.lastClickTime < 100
        · rw [if_pos hd]
          exact id
        · rw [if_neg hd]
          simp only [handleMouseClick]
          cases hf : findNodeByClick { tv with lastClickTime := now } x y with
          | none => intro h; simpa using h
          | some pn =>
              cases pn
              intro h
              simp at h
      · exact id
      · intro h; simpa [step, Mouse] using h
      · intro h; simpa [step, Mouse] using h
  | key k now => exact Keyboard_selected_none tv k now
  | next =>
      simp only [step, Next]
      repeat' split
      all_goals intro h
      · exact selectIndex_selected_none _ _ (by simpa using h)
      · exact selectIndex_selected_none _ _ (by simpa using h)
      · exact h
  | previous =>
      simp only [step, Previous]
      repeat' split
      all_goals intro h
      · exact selectIndex_selected_none _ _ (by simpa using h)
      · exact selectIndex_selected_none _ _ (by simpa using h)
      · exact h
  | draw w h =>
      simp only [step, Draw]
      repeat' split
      all_goals (intro h2; simpa using h2)
  | tick =>
      simp only [step, runSpinnerTick]
      split <;> (intro h; simpa using h)
  | taskDone p ok => intro h; simpa [step, completeTask] using h

theorem step_selected_none_fwd (tv : Treeview) (op : Op)
    (hs : tv.selectedNode = none) (hc : tv.visiblePaths = []) :
    (step tv op).selectedNode = none := by
  have hidx : getSelectedNodeIndex tv = -1 := by
    unfold getSelectedNodeIndex
    rw [hs]
  cases op with
  | mouse b x y now =>
      cases b
      · simp only [step, Mouse]
        by_cases hd : now - tv.lastClickTime < 100
        · rw [if_pos hd]
          exact hs
        · rw [if_neg hd]
          simp only [handleMouseClick]
          rw [findNodeByClick_nil _ x y (by simpa using hc)]
          simpa using hs
      · exact hs
      · simpa [step, Mouse] using hs
      · simpa [step, Mouse] using hs
  | key k now =>
      simp only [step, Keyboard, keyboardRun]
      rw [if_pos ⟨hidx, hc⟩]
      exact hs
  | next =>
      simp only [step, Next]
      rw [hidx]
      rw [if_neg (by omega)]
      exact hs
  | previous =>
      simp only [step, Previous]
      rw [hidx]
      rw [if_neg (by omega)]
      exact hs
  | draw w h =>
      simp only [step, Draw]
      repeat' split
      all_goals simpa using hs
  | tick =>
      simp only [step, runSpinnerTick]
      split <;> simpa using hs
  | taskDone p ok => simpa [step, completeTask] using hs

theorem step_visible_cases (tv : Treeview) (op : Op) :
    (step tv op).visiblePaths = tv.visiblePaths ∨
    (step tv op).visiblePaths = visiblePathList tv.nodes := by
  cases op with
  | mouse b x y now =>
      cases b
      · simp only [step, Mouse]
        by_cases hd : now - tv.lastClickTime < 100
        · rw [if_pos hd]
          exact Or.inl rfl
        · rw [if_neg hd]
          simp only [handleMouseClick]
          cases hf : findNodeByClick { tv with lastClickTime := now } x y with
          | none => exact Or.inl rfl
          | some pn => cases pn; exact Or.inl (by simp)
      · exact Or.inl rfl
      · exact Or.inr (by simp [step, Mouse])
      · exact Or.inr (by simp [step, Mouse])
  | key k now => exact Or.inl (Keyboard_visible tv k now)
  | next =>
      refine Or.inl ?_
      simp only [step, Next]
      repeat' split
      all_goals simp
  | previous =>
      refine Or.inl ?_
      simp only [step, Previous]
      repeat' split
      all_goals simp
  | draw w h =>
      refine Or.inr ?_
      simp only [step, Draw]
      repeat' split
      all_goals simp
  | tick =>
      refine Or.inl ?_
      simp only [step, runSpinnerTick]
      split <;> rfl
  | taskDone p ok => exact Or.inl rfl

theorem step_selectionInv (tv : Treeview) (op : Op) (h : SelectionInv tv) :
    SelectionInv (step tv op) := by
  obtain ⟨hsel, hcache⟩ := h
  constructor
  · constructor
    · intro hs'
      exact (step_nodes_nil tv op).mpr (hsel.mp (step_selected_none tv op hs'))
    · intro hn'
      have hn : tv.nodes = [] := (step_nodes_nil tv op).mp hn'
      exact step_selected_none_fwd tv op (hsel.mpr hn) (hcache hn)
  · intro hn'
    have hn : tv.nodes = [] := (step_nodes_nil tv op).mp hn'
    rcases step_visible_cases tv op with hv | hv
    · rw [hv]
      exact hcache hn
    · rw [hv, hn]
      exact visiblePathList_nil

theorem New_selectionInv (opts : Options) : SelectionInv (New opts) := by
  simp only [New, SelectionInv]
  constructor
  · generalize (setParentsAndAssignIDs opts.nodes 0 "").map
        (fun n => n.SetExpandedState true) = ns
    cases ns with
    | nil => simp [preorderWalk]
    | cons m rest =>
        cases m
        rw [preorderWalk]
        simp
  · intro _
    trivial

theorem runOps_selectionInv (ops : List Op) :
    ∀ tv : Treeview, SelectionInv tv → SelectionInv (runOps tv ops) := by
  induction ops with
  | nil => exact fun tv h => h
  | cons op rest ih => exact fun tv h => ih (step tv op) (step_selectionInv tv op h)

/-- C10: in every reachable widget state, the selection is empty exactly
when the forest is empty (`New` selects the first visible node and no
operation ever clears a selection), the cache is empty for an empty
forest, `Select` returns the "no option selected" error exactly for the
empty forest, and for the empty forest `Draw` hands `drawNode` an empty
slice — so its unguarded `selectedNode.ID` dereference never sees nil. -/
theorem claim_C10_selection_total (tv : Treeview) (h : Reachable tv) :
    (tv.selectedNode = none ↔ tv.nodes = []) ∧
    (tv.nodes = [] → tv.visiblePaths = []) ∧
    (Select tv = .error "no option selected" ↔ tv.nodes = []) ∧
    (tv.nodes = [] → nodesToDraw tv = []) := by
  obtain ⟨opts, ops, rfl⟩ := h
  have hinv := runOps_selectionInv ops (New opts) (New_selectionInv opts)
  obtain ⟨hsel, hcache⟩ := hinv
  refine ⟨hsel, hcache, ?_, ?_⟩
  · rw [← hsel]
    unfold Select
    cases hs : (runOps (New opts) ops).selectedNode with
    | none => simp
    | some r => simp
  · intro hn
    unfold nodesToDraw
    rw [hcache hn]
    simp

theorem claim_C10_selection_total_witness :
    Reachable exampleTV ∧
    ((exampleTV.selectedNode = none ↔ exampleTV.nodes = []) ∧
      (exampleTV.nodes = [] → exampleTV.visiblePaths = []) ∧
      (Select exampleTV = .error "no option selected" ↔ exampleTV.nodes = []) ∧
      (exampleTV.nodes = [] → nodesToDraw exampleTV = [])) := by
  have hr : Reachable exampleTV := ⟨{ nodes := exampleForest }, [], rfl⟩
  exact ⟨hr, claim_C10_selection_total exampleTV hr⟩

end Termdash
